import Mathlib

/-!
Shallow embedding of the pinhole-camera model of the repository
(`src/third_party/rpg_vi_utils/include/vi_utils/cam_min.h`), together with
theorems settling the stated properties of `PinholeCam`.

Modelling conventions:
* `double` is embedded as `ℚ` (exact arithmetic); the two thresholds whose
  construction default is `+infinity` (`max_depth_`, `max_dist_`) live in
  `WithTop ℚ`, with `⊤` standing for `std::numeric_limits<double>::infinity()`,
  and for uniformity the matching minimum thresholds do too.
* A column batch (`Eigen::Matrix<double, k, Cols>`) is embedded as a `List` of
  column vectors, in column order.
* A fatal `CHECK` failure is embedded as an `Option` result: `none` is the
  fatal outcome, `some` carries the successful result or updated state.
* Member functions that mutate the camera return the updated `PinholeCam`.
-/

/-- A 2-vector of rationals, standing for `Eigen::Vector2d` (a pixel). -/
structure Vec2 where
  x : ℚ
  y : ℚ
deriving DecidableEq, Repr

/-- A 3-vector of rationals, standing for `Eigen::Vector3d`. -/
structure Vec3 where
  x : ℚ
  y : ℚ
  z : ℚ
deriving DecidableEq, Repr

/-- A 3x3 matrix of rationals, standing for `Eigen::Matrix3d`, row by row. -/
structure Mat3 where
  m00 : ℚ
  m01 : ℚ
  m02 : ℚ
  m10 : ℚ
  m11 : ℚ
  m12 : ℚ
  m20 : ℚ
  m21 : ℚ
  m22 : ℚ
deriving DecidableEq, Repr

/-- Matrix-vector product `M * v` for 3x3 matrices. -/
def Mat3.mulVec (M : Mat3) (v : Vec3) : Vec3 :=
  { x := M.m00 * v.x + M.m01 * v.y + M.m02 * v.z
    y := M.m10 * v.x + M.m11 * v.y + M.m12 * v.z
    z := M.m20 * v.x + M.m21 * v.y + M.m22 * v.z }

/-- A rigid transform (`rpg::Pose`): rotation and translation.  Its contents
are never inspected by the camera model in `cam_min.h`; it is carried as
opaque state (`T_b_c_`). -/
structure Pose where
  R : Mat3
  t : Vec3
deriving DecidableEq, Repr

/-- Modelled from the spec: `CamMeasurements` is declared in
`vi_utils/vi_measurements.h`, which is not part of the given source.  Per the
spec it is a container this core populates via
`setMeasurements(pixel_columns, landmark_ids, track_ids)` and treats as a pure
sink with no feedback. -/
structure CamMeasurements where
  keypoints : List Vec2
  global_lm_ids : List Int
  track_ids : List Int
deriving DecidableEq, Repr

/-- Modelled from the spec: `setMeasurements` stores the three parallel
columns (pixels, landmark ids, track ids) into the container, replacing its
previous contents (pure sink). -/
def CamMeasurements.setMeasurements (_m : CamMeasurements) (us : List Vec2)
    (global_lm_ids track_ids : List Int) : CamMeasurements :=
  { keypoints := us, global_lm_ids := global_lm_ids, track_ids := track_ids }

/-- The state of `vi_utils::PinholeCam` (cam_min.h, lines 189-204).  Field
names follow the private members of the class with the trailing underscore
dropped. -/
structure PinholeCam where
  fx : ℚ
  fy : ℚ
  cx : ℚ
  cy : ℚ
  w : ℤ
  h : ℤ
  w_margin : ℚ
  h_margin : ℚ
  min_depth : WithTop ℚ
  max_depth : WithTop ℚ
  min_dist : WithTop ℚ
  max_dist : WithTop ℚ
  T_b_c : Pose
  K : Mat3
  K_inv : Mat3
  bearings_at_pixels : List Vec3
  pixel_bearing_computed : Bool
deriving DecidableEq

/-- `PinholeCam::isInsideImage` (cam_min.h, lines 102-108): the pixel must be
strictly inside the margins on both axes. -/
def PinholeCam.isInsideImage (c : PinholeCam) (u : Vec2) : Bool :=
  (decide (u.x > c.w_margin) && decide (u.x < (c.w : ℚ) - c.w_margin)) &&
  (decide (u.y > c.h_margin) && decide (u.y < (c.h : ℚ) - c.h_margin))

/-- `PinholeCam::isDepthValid` (cam_min.h, lines 110-115): the camera-frame z
coordinate must exceed `z_margin` (the C++ default argument is `0.05`) and lie
strictly between `min_depth_` and `max_depth_`.  The comparisons against the
thresholds are taken in `WithTop ℚ`. -/
def PinholeCam.isDepthValid (c : PinholeCam) (pc : Vec3) (z_margin : ℚ) : Bool :=
  decide (pc.z > z_margin) && decide ((pc.z : WithTop ℚ) < c.max_depth) &&
    decide ((pc.z : WithTop ℚ) > c.min_depth)

/-- `PinholeCam::setDepthRange` (cam_min.h, lines 123-128): `CHECK_LT(min_z,
max_z)` is fatal (`none`) when the check fails; otherwise both depth
thresholds are overwritten. -/
def PinholeCam.setDepthRange (c : PinholeCam) (min_z max_z : WithTop ℚ) :
    Option PinholeCam :=
  if min_z < max_z then
    some { c with min_depth := min_z, max_depth := max_z }
  else
    none

/-- `PinholeCam::setDistRange` (cam_min.h, lines 130-135): `CHECK_LT(min_dist,
max_dist)` is fatal (`none`) when the check fails; otherwise both distance
thresholds are overwritten. -/
def PinholeCam.setDistRange (c : PinholeCam) (min_dist max_dist : WithTop ℚ) :
    Option PinholeCam :=
  if min_dist < max_dist then
    some { c with min_dist := min_dist, max_dist := max_dist }
  else
    none

/-- `PinholeCam::setMargin` (cam_min.h, lines 147-152): `CHECK_GE(ratio, 0.0)`
is fatal (`none`) for a negative ratio; otherwise both margins are set to the
ratio times the image dimensions. -/
def PinholeCam.setMargin (c : PinholeCam) (ratio : ℚ) : Option PinholeCam :=
  if ratio ≥ 0 then
    some { c with w_margin := (c.w : ℚ) * ratio, h_margin := (c.h : ℚ) * ratio }
  else
    none

/-- `PinholeCam::pixelCoordToFlatIdx` (cam_min.h, lines 154-157): row-major
flat index `y * w + x`. -/
def PinholeCam.pixelCoordToFlatIdx (c : PinholeCam) (x y : ℤ) : ℤ :=
  y * c.w + x

/-- `PinholeCam::getBearingAtPixel` (cam_min.h, lines 159-171):
`CHECK(pixel_bearing_computed_)` is fatal (`none`) when the cache has not been
populated; otherwise the stored column at the flat index is returned. -/
def PinholeCam.getBearingAtPixel (c : PinholeCam) (x y : ℤ) : Option Vec3 :=
  if c.pixel_bearing_computed then
    c.bearings_at_pixels[(c.pixelCoordToFlatIdx x y).toNat]?
  else
    none

/-- `PinholeCam::backproject3d` (cam_min.h, lines 91-95): lift the pixel to
homogeneous coordinates and apply `K_inv_`. -/
def PinholeCam.backproject3d (c : PinholeCam) (u : Vec2) : Vec3 :=
  c.K_inv.mulVec { x := u.x, y := u.y, z := 1 }

/-- `PinholeCam::project3dBatch` (cam_min.h, lines 209-234): computes
`us_homo = K_ * pcs`, divides the first two rows by the third componentwise
(for every column, visible or not), then for each column sets the visibility
flag to `isDepthValid(pcs.col(i)) && isInsideImage(us->col(i))`, with
`isDepthValid` at its default `z_margin` of `0.05`. -/
def PinholeCam.project3dBatch (c : PinholeCam) (pcs : List Vec3) :
    List Vec2 × List Bool :=
  let us := pcs.map fun p =>
    let uh := c.K.mulVec p
    Vec2.mk (uh.x / uh.z) (uh.y / uh.z)
  let is_visible := (pcs.zip us).map fun pu =>
    c.isDepthValid pu.1 (5 / 100) && c.isInsideImage pu.2
  (us, is_visible)

/-- Modelled from the spec: the body of `PinholeCam::project3d` is not part of
the given source (cam_min.h, line 80, only declares it).  Per the spec it
applies `K` to the point, performs the perspective division of the first two
homogeneous coordinates by the third, and returns an explicit invalid signal
exactly when the division is degenerate (homogeneous z-component ≤ 0). -/
def PinholeCam.project3d (c : PinholeCam) (p_c : Vec3) : Vec2 × Bool :=
  let uh := c.K.mulVec p_c
  (Vec2.mk (uh.x / uh.z) (uh.y / uh.z), decide (uh.z > 0))

/-- The compaction loop of `PinholeCam::project3dBatchWithIds` (cam_min.h,
lines 279-288): walk the columns in order and keep the pixel and landmark id
of each visible column. -/
def compactVisible : List Vec2 → List Int → List Bool → List Vec2 × List Int
  | u :: us, j :: js, v :: vs =>
    let rest := compactVisible us js vs
    if v then (u :: rest.1, j :: rest.2) else rest
  | _, _, _ => ([], [])

/-- `PinholeCam::project3dBatchWithIds` (cam_min.h, lines 259-290): run the
batch projection, count the visible columns, compact pixels and landmark ids
by visibility in original column order, fill the track ids with the unset
sentinel `-1`, and store all three into the measurement container. -/
def PinholeCam.project3dBatchWithIds (c : PinholeCam) (pcs : List Vec3)
    (ids : List Int) (cam_meas : CamMeasurements) : CamMeasurements :=
  let r := c.project3dBatch pcs
  let n_visible := r.2.count true
  let vis := compactVisible r.1 ids r.2
  cam_meas.setMeasurements vis.1 vis.2 (List.replicate n_visible (-1))

/-- Modelled from the spec: the body of `PinholeCam::computeBearingVectors` is
not part of the given source (cam_min.h, line 179, only declares it).  Per the
spec it eagerly backprojects every pixel of the full width x height grid and
stores the ray directions in flattened row-major order (index `y * w + x`),
then marks the cache populated. -/
def PinholeCam.computeBearingVectors (c : PinholeCam) : PinholeCam :=
  { c with
    bearings_at_pixels :=
      (List.range (c.h.toNat * c.w.toNat)).map fun idx =>
        c.backproject3d (Vec2.mk ((idx % c.w.toNat : ℕ) : ℚ) ((idx / c.w.toNat : ℕ) : ℚ))
    pixel_bearing_computed := true }

/-- Modelled from the spec: `updateK`'s body is not part of the given source.
Per the spec, `K` is the 3x3 intrinsic matrix encoding focal lengths and
principal point of the ideal pinhole model. -/
def pinholeK (fx fy cx cy : ℚ) : Mat3 :=
  { m00 := fx, m01 := 0, m02 := cx
    m10 := 0, m11 := fy, m12 := cy
    m20 := 0, m21 := 0, m22 := 1 }

/-- Modelled from the spec: `K_inv_` is computed by matrix inversion of `K`
(assuming `fx, fy ≠ 0`); this is the closed form of that inverse. -/
def pinholeKInv (fx fy cx cy : ℚ) : Mat3 :=
  { m00 := 1 / fx, m01 := 0, m02 := -(cx / fx)
    m10 := 0, m11 := 1 / fy, m12 := -(cy / fy)
    m20 := 0, m21 := 0, m22 := 1 }

/-- Construction of a `PinholeCam` from intrinsics and the body-to-camera
pose.  The threshold defaults are the in-class member initializers of
cam_min.h, lines 193-197: `min_depth_ = -1`, `max_depth_ = +infinity`,
`min_dist_ = -1`, `max_dist_ = +infinity`, and the bearing cache starts
unpopulated (line 203).  Modelled from the spec for the parts whose body is in
the missing constructor: margins default to zero and `K`, `K_inv` are derived
from the intrinsics. -/
def mkPinholeCam (fx fy cx cy : ℚ) (w h : ℤ) (Tbc : Pose) : PinholeCam :=
  { fx := fx, fy := fy, cx := cx, cy := cy, w := w, h := h
    w_margin := 0, h_margin := 0
    min_depth := ((-1 : ℚ) : WithTop ℚ), max_depth := ⊤
    min_dist := ((-1 : ℚ) : WithTop ℚ), max_dist := ⊤
    T_b_c := Tbc
    K := pinholeK fx fy cx cy
    K_inv := pinholeKInv fx fy cx cy
    bearings_at_pixels := []
    pixel_bearing_computed := false }

/-- The identity pose, used only to instantiate concrete cameras. -/
def idPose : Pose :=
  { R := { m00 := 1, m01 := 0, m02 := 0
           m10 := 0, m11 := 1, m12 := 0
           m20 := 0, m21 := 0, m22 := 1 }
    t := { x := 0, y := 0, z := 0 } }

/-- The intrinsics of the worked example in the spec: `fx = fy = 300`,
`cx = 320`, `cy = 240`, `w = 640`, `h = 480`, margin ratio 0. -/
def exampleCam : PinholeCam :=
  mkPinholeCam 300 300 320 240 640 480 idPose

/-- The example camera after `setMargin(0.25)`. -/
def marginCamA : PinholeCam :=
  { exampleCam with w_margin := 160, h_margin := 120 }

/-- The example camera after `setMargin(0.125)`. -/
def marginCamB : PinholeCam :=
  { exampleCam with w_margin := 80, h_margin := 60 }

/-- The example camera after `setDepthRange(1, 2)`. -/
def depthCamA : PinholeCam :=
  { exampleCam with min_depth := ((1 : ℚ) : WithTop ℚ),
                    max_depth := ((2 : ℚ) : WithTop ℚ) }

/-- The example camera after `setDistRange(1, 2)`. -/
def distCamA : PinholeCam :=
  { exampleCam with min_dist := ((1 : ℚ) : WithTop ℚ),
                    max_dist := ((2 : ℚ) : WithTop ℚ) }

/-- A small camera (`w = 3`, `h = 2`) keeping the bearing cache tiny. -/
def tinyCam : PinholeCam :=
  mkPinholeCam 300 300 1 1 3 2 idPose

/-! ### Helper characterizations of the batch projection -/

/-- The per-column pixel formula of `project3dBatch` (and of `project3d`):
apply `K` and divide the first two homogeneous coordinates by the third. -/
def PinholeCam.pixelOfPoint (c : PinholeCam) (p : Vec3) : Vec2 :=
  let uh := c.K.mulVec p
  Vec2.mk (uh.x / uh.z) (uh.y / uh.z)

/-- The per-column visibility flag of `project3dBatch`. -/
def PinholeCam.visibleFlag (c : PinholeCam) (p : Vec3) : Bool :=
  c.isDepthValid p (5 / 100) && c.isInsideImage (c.pixelOfPoint p)

theorem zip_map_self {α β γ : Type} (l : List α) (g : α → β) (f : α × β → γ) :
    (l.zip (l.map g)).map f = l.map fun a => f (a, g a) := by
  induction l with
  | nil => simp
  | cons a l ih => simp [ih]

theorem project3dBatch_eq (c : PinholeCam) (pcs : List Vec3) :
    c.project3dBatch pcs = (pcs.map c.pixelOfPoint, pcs.map c.visibleFlag) := by
  simp [PinholeCam.project3dBatch, PinholeCam.pixelOfPoint, PinholeCam.visibleFlag,
    zip_map_self]

theorem pinholeK_mulVec_z (fx fy cx cy : ℚ) (p : Vec3) :
    ((pinholeK fx fy cx cy).mulVec p).z = p.z := by
  simp [pinholeK, Mat3.mulVec]

section ClaimTheorems

attribute [local semireducible] Rat.add Rat.mul Rat.inv Rat.sub

/-- Claim C3: in `project3dBatch` the visibility flag of every column `i`
equals `isDepthValid(point_i)` (at the default `z_margin` of `0.05`) AND
`isInsideImage(pixel_i)`, computed per column; and the distance-valid
thresholds are not consulted: changing `min_dist_` and `max_dist_` leaves the
whole batch output unchanged. -/
theorem batch_visibility_flag_spec (c : PinholeCam) (pcs : List Vec3) (i : ℕ)
    (p : Vec3) (u : Vec2)
    (hp : pcs[i]? = some p)
    (hu : ((c.project3dBatch pcs).1)[i]? = some u) :
    ((c.project3dBatch pcs).2)[i]? =
      some (c.isDepthValid p (5 / 100) && c.isInsideImage u) ∧
    ∀ d1 d2 : WithTop ℚ,
      ({ c with min_dist := d1, max_dist := d2 } : PinholeCam).project3dBatch pcs =
        c.project3dBatch pcs := by
  constructor
  · rw [project3dBatch_eq] at hu ⊢
    simp only [List.getElem?_map, hp, Option.map_some'] at hu ⊢
    obtain rfl : c.pixelOfPoint p = u := by
      exact Option.some.inj hu
    simp [PinholeCam.visibleFlag]
  · intro d1 d2
    rw [project3dBatch_eq, project3dBatch_eq]
    simp [PinholeCam.pixelOfPoint, PinholeCam.visibleFlag, PinholeCam.isDepthValid,
      PinholeCam.isInsideImage]

/-- Witness for C3 at the worked example of the spec: the single point
`(0, 0, 2)` projects to pixel `(320, 240)` and its flag is the stated
conjunction. -/
theorem batch_visibility_flag_spec_witness :
    ((exampleCam.project3dBatch [Vec3.mk 0 0 2]).2)[0]? =
      some (exampleCam.isDepthValid (Vec3.mk 0 0 2) (5 / 100) &&
        exampleCam.isInsideImage (Vec2.mk 320 240)) :=
  (batch_visibility_flag_spec exampleCam [Vec3.mk 0 0 2] 0 (Vec3.mk 0 0 2)
    (Vec2.mk 320 240) (by decide) (by decide)).1

/-- Claim C9: a column whose camera-frame z-component is at most the depth
epsilon `0.05` (in particular `z = 0`) is never reported visible, while its
pixel entry is still written: the pixel output keeps one entry per input
column. -/
theorem degenerate_column_not_visible (c : PinholeCam) (pcs : List Vec3) (i : ℕ)
    (p : Vec3) (hp : pcs[i]? = some p) (hz : p.z ≤ 5 / 100) :
    ((c.project3dBatch pcs).2)[i]? = some false ∧
    ((c.project3dBatch pcs).1).length = pcs.length := by
  rw [project3dBatch_eq]
  refine ⟨?_, by simp⟩
  simp only [List.getElem?_map, hp, Option.map_some']
  have h1 : ¬ (p.z > 5 / 100) := not_lt.mpr hz
  simp [PinholeCam.visibleFlag, PinholeCam.isDepthValid, h1]

/-- Witness for C9: the point `(0, 0, 0)` (exactly on the camera plane) gets
visibility flag `false`, and the pixel row still has an entry for it. -/
theorem degenerate_column_not_visible_witness :
    ((exampleCam.project3dBatch [Vec3.mk 0 0 0]).2)[0]? = some false ∧
    ((exampleCam.project3dBatch [Vec3.mk 0 0 0]).1).length = 1 :=
  degenerate_column_not_visible exampleCam [Vec3.mk 0 0 0] 0 (Vec3.mk 0 0 0)
    (by decide) (by decide)

/-- Counterexample to claim C2 as stated: for the spec's example camera and
the point `(100, 0, 1)` (strictly in front of the camera but projecting far
outside the image), `project3dBatch` reports the column not visible while
`project3d` reports the point valid, so the batch flag and the scalar
validity outcome differ. -/
theorem batch_scalar_equiv_counterexample :
    ((exampleCam.project3dBatch [Vec3.mk 100 0 1]).2)[0]? = some false ∧
    (exampleCam.project3d (Vec3.mk 100 0 1)).2 = true := by decide

/-- Claim C2 (amended): column-by-column, `project3dBatch` produces exactly
the pixel of a scalar `project3d` call; the batch visibility flag implies
scalar validity, and on degenerate columns (`z ≤ 0`) both report invalid; but
the two validity outcomes are not equal in general, since the batch flag
additionally requires the depth-range and inside-image predicates. -/
theorem batch_scalar_refinement (c : PinholeCam) (pcs : List Vec3) (i : ℕ)
    (p : Vec3) (hp : pcs[i]? = some p)
    (hK : c.K = pinholeK c.fx c.fy c.cx c.cy) :
    ((c.project3dBatch pcs).1)[i]? = some (c.project3d p).1 ∧
    (((c.project3dBatch pcs).2)[i]? = some true → (c.project3d p).2 = true) ∧
    (p.z ≤ 0 → ((c.project3dBatch pcs).2)[i]? = some false ∧
      (c.project3d p).2 = false) := by
  have hpix : (c.project3d p).1 = c.pixelOfPoint p := rfl
  have hval : (c.project3d p).2 = decide ((c.K.mulVec p).z > 0) := rfl
  have hz_eq : (c.K.mulVec p).z = p.z := by rw [hK, pinholeK_mulVec_z]
  rw [project3dBatch_eq]
  refine ⟨by simp [List.getElem?_map, hp, hpix], ?_, ?_⟩
  · intro hvis
    simp only [List.getElem?_map, hp, Option.map_some', Option.some.injEq] at hvis
    have hdepth : c.isDepthValid p (5 / 100) = true :=
      (Bool.and_eq_true _ _ |>.mp hvis).1
    have hgt : p.z > 5 / 100 := by
      simp [PinholeCam.isDepthValid] at hdepth
      exact hdepth.1.1
    rw [hval, hz_eq]
    have : (0 : ℚ) < p.z := lt_trans (by norm_num) hgt
    simp [this]
  · intro hz
    have h1 : ¬ (p.z > 5 / 100) := by
      intro hgt
      have : (0 : ℚ) < 5 / 100 := by norm_num
      linarith
    refine ⟨?_, ?_⟩
    · simp only [List.getElem?_map, hp, Option.map_some']
      simp [PinholeCam.visibleFlag, PinholeCam.isDepthValid, h1]
    · rw [hval, hz_eq]
      simp [not_lt.mpr hz]

/-- Witness for the amended C2 at the point `(0, 0, -1)` behind the camera:
the batch pixel equals the scalar pixel, and both validity outcomes are
`false`. -/
theorem batch_scalar_refinement_witness :
    ((exampleCam.project3dBatch [Vec3.mk 0 0 (-1)]).1)[0]? =
      some (exampleCam.project3d (Vec3.mk 0 0 (-1))).1 ∧
    ((exampleCam.project3dBatch [Vec3.mk 0 0 (-1)]).2)[0]? = some false ∧
    (exampleCam.project3d (Vec3.mk 0 0 (-1))).2 = false :=
  ⟨(batch_scalar_refinement exampleCam [Vec3.mk 0 0 (-1)] 0 (Vec3.mk 0 0 (-1))
      (by decide) (by decide)).1,
   (batch_scalar_refinement exampleCam [Vec3.mk 0 0 (-1)] 0 (Vec3.mk 0 0 (-1))
      (by decide) (by decide)).2.2 (by decide)⟩

/-- Claim C5: for a camera-frame point with z-component ≤ 0 (behind or on the
camera plane), `project3d` returns the explicit invalid signal `false` as an
ordinary boolean outcome, and the batch API surfaces validity per element: the
visibility output always has one flag per input column. -/
theorem project3d_invalid_behind_camera (c : PinholeCam) (p : Vec3)
    (hK : c.K = pinholeK c.fx c.fy c.cx c.cy) (hz : p.z ≤ 0) :
    (c.project3d p).2 = false ∧
    ∀ pcs : List Vec3, ((c.project3dBatch pcs).2).length = pcs.length := by
  refine ⟨?_, fun pcs => by rw [project3dBatch_eq]; simp⟩
  have hval : (c.project3d p).2 = decide ((c.K.mulVec p).z > 0) := rfl
  have hz_eq : (c.K.mulVec p).z = p.z := by rw [hK, pinholeK_mulVec_z]
  rw [hval, hz_eq]
  simp [not_lt.mpr hz]

/-- Witness for C5: the spec example point `(0, 0, -1)` yields the invalid
signal, and a two-column batch yields two flags. -/
theorem project3d_invalid_behind_camera_witness :
    (exampleCam.project3d (Vec3.mk 0 0 (-1))).2 = false ∧
    ((exampleCam.project3dBatch [Vec3.mk 0 0 (-1), Vec3.mk 0 0 2]).2).length = 2 :=
  ⟨(project3d_invalid_behind_camera exampleCam (Vec3.mk 0 0 (-1))
      (by decide) (by decide)).1,
   (project3d_invalid_behind_camera exampleCam (Vec3.mk 0 0 (-1))
      (by decide) (by decide)).2 [Vec3.mk 0 0 (-1), Vec3.mk 0 0 2]⟩

end ClaimTheorems

section ClaimTheoremsTwo

attribute [local semireducible] Rat.add Rat.mul Rat.inv Rat.sub

/-- Claim C4: `isDepthValid(p, z_margin)` holds iff the camera-frame z
coordinate exceeds `z_margin` and lies strictly between `min_depth` and
`max_depth`; and with the construction defaults `min_depth = -1`,
`max_depth = +infinity` the configured minimum bound is vacuous for any
non-negative `z_margin` (in particular the default `0.05`), so the predicate
reduces to `z > z_margin`; `mkPinholeCam` indeed installs those defaults. -/
theorem isDepthValid_spec :
    (∀ (c : PinholeCam) (p : Vec3) (m : ℚ),
      c.isDepthValid p m = true ↔
        (m < p.z ∧ (p.z : WithTop ℚ) < c.max_depth ∧
          c.min_depth < (p.z : WithTop ℚ))) ∧
    (∀ (c : PinholeCam) (p : Vec3) (m : ℚ), 0 ≤ m →
      c.min_depth = ((-1 : ℚ) : WithTop ℚ) → c.max_depth = ⊤ →
      (c.isDepthValid p m = true ↔ m < p.z)) ∧
    (∀ (fx0 fy0 cx0 cy0 : ℚ) (w0 h0 : ℤ) (Tbc : Pose),
      (mkPinholeCam fx0 fy0 cx0 cy0 w0 h0 Tbc).min_depth = ((-1 : ℚ) : WithTop ℚ) ∧
      (mkPinholeCam fx0 fy0 cx0 cy0 w0 h0 Tbc).max_depth = ⊤) := by
  refine ⟨?_, ?_, ?_⟩
  · intro c p m
    simp [PinholeCam.isDepthValid, and_assoc]
  · intro c p m hm hmin hmax
    simp only [PinholeCam.isDepthValid, hmin, hmax, Bool.and_eq_true,
      decide_eq_true_eq]
    constructor
    · rintro ⟨⟨h1, _⟩, _⟩
      exact h1
    · intro h1
      refine ⟨⟨h1, WithTop.coe_lt_top p.z⟩, ?_⟩
      have h2 : (-1 : ℚ) < p.z := by linarith
      exact WithTop.coe_lt_coe.mpr h2
  · intro fx0 fy0 cx0 cy0 w0 h0 Tbc
    exact ⟨rfl, rfl⟩

/-- Witness for C4: with the default thresholds of the example camera and the
default epsilon `0.05`, the point `(0, 0, 2)` is depth-valid. -/
theorem isDepthValid_spec_witness :
    exampleCam.isDepthValid (Vec3.mk 0 0 2) (5 / 100) = true :=
  (isDepthValid_spec.2.1 exampleCam (Vec3.mk 0 0 2) (5 / 100)
    (by decide) (by decide) (by decide)).mpr (by decide)

/-- Claim C6: with non-negative image dimensions, shrinking the margin ratio
from `r1` to `r2 < r1` never turns a pixel that was inside the image at `r1`
into one outside at `r2`; conversely a pixel rejected at the smaller ratio
stays rejected when the ratio is increased. -/
theorem margin_visibility_monotone (c : PinholeCam) (u : Vec2) (r1 r2 : ℚ)
    (hw : 0 ≤ c.w) (hh : 0 ≤ c.h) (hr2 : 0 ≤ r2) (hr12 : r2 < r1)
    (c1 c2 : PinholeCam)
    (hc1 : c.setMargin r1 = some c1) (hc2 : c.setMargin r2 = some c2) :
    (c1.isInsideImage u = true → c2.isInsideImage u = true) ∧
    (c2.isInsideImage u = false → c1.isInsideImage u = false) := by
  have hr1 : r1 ≥ 0 := le_of_lt (lt_of_le_of_lt hr2 hr12)
  unfold PinholeCam.setMargin at hc1 hc2
  rw [if_pos hr1] at hc1
  rw [if_pos (ge_iff_le.mpr hr2)] at hc2
  obtain rfl := Option.some.inj hc1
  obtain rfl := Option.some.inj hc2
  have hwq : (0 : ℚ) ≤ (c.w : ℚ) := by exact_mod_cast hw
  have hhq : (0 : ℚ) ≤ (c.h : ℚ) := by exact_mod_cast hh
  have hwm : (c.w : ℚ) * r2 ≤ (c.w : ℚ) * r1 :=
    mul_le_mul_of_nonneg_left (le_of_lt hr12) hwq
  have hhm : (c.h : ℚ) * r2 ≤ (c.h : ℚ) * r1 :=
    mul_le_mul_of_nonneg_left (le_of_lt hr12) hhq
  have hmono : PinholeCam.isInsideImage
      { c with w_margin := (c.w : ℚ) * r1, h_margin := (c.h : ℚ) * r1 } u = true →
      PinholeCam.isInsideImage
      { c with w_margin := (c.w : ℚ) * r2, h_margin := (c.h : ℚ) * r2 } u = true := by
    intro hin
    simp only [PinholeCam.isInsideImage, Bool.and_eq_true, decide_eq_true_eq] at hin ⊢
    obtain ⟨⟨hx1, hx2⟩, hy1, hy2⟩ := hin
    exact ⟨⟨by linarith, by linarith⟩, by linarith, by linarith⟩
  refine ⟨hmono, fun h2 => ?_⟩
  cases h1 : PinholeCam.isInsideImage
      { c with w_margin := (c.w : ℚ) * r1, h_margin := (c.h : ℚ) * r1 } u
  · rfl
  · exact absurd (hmono h1) (by simp [h2])

/-- Witness for C6: pixel `(320, 240)` is inside the example image at margin
ratio `1/4` and stays inside after shrinking the ratio to `1/8`. -/
theorem margin_visibility_monotone_witness :
    marginCamB.isInsideImage (Vec2.mk 320 240) = true :=
  (margin_visibility_monotone exampleCam (Vec2.mk 320 240) (1 / 4) (1 / 8)
    (by decide) (by decide) (by decide) (by decide) marginCamA marginCamB
    (by decide) (by decide)).1 (by decide)

/-- Claim C8: `setDepthRange` and `setDistRange` are fatal (`none`) exactly
when `min ≥ max`, and on success they set the corresponding threshold pair to
exactly the given values. -/
theorem setRange_fatal_iff (c : PinholeCam) (a b : WithTop ℚ) :
    (c.setDepthRange a b = none ↔ b ≤ a) ∧
    (c.setDistRange a b = none ↔ b ≤ a) ∧
    (∀ c1, c.setDepthRange a b = some c1 →
      c1.min_depth = a ∧ c1.max_depth = b) ∧
    (∀ c2, c.setDistRange a b = some c2 →
      c2.min_dist = a ∧ c2.max_dist = b) := by
  refine ⟨?_, ?_, ?_, ?_⟩
  · unfold PinholeCam.setDepthRange
    split
    · rename_i hab
      simp [not_le.mpr hab]
    · rename_i hab
      simp [not_lt.mp hab]
  · unfold PinholeCam.setDistRange
    split
    · rename_i hab
      simp [not_le.mpr hab]
    · rename_i hab
      simp [not_lt.mp hab]
  · intro c1 hc1
    unfold PinholeCam.setDepthRange at hc1
    split at hc1
    · obtain rfl := Option.some.inj hc1
      exact ⟨rfl, rfl⟩
    · exact Option.noConfusion hc1
  · intro c2 hc2
    unfold PinholeCam.setDistRange at hc2
    split at hc2
    · obtain rfl := Option.some.inj hc2
      exact ⟨rfl, rfl⟩
    · exact Option.noConfusion hc2

/-- Witness for C8: `setDepthRange(1, 2)` on the example camera succeeds and
installs exactly those thresholds, while `setDepthRange(2, 1)` is fatal. -/
theorem setRange_fatal_iff_witness :
    (depthCamA.min_depth = ((1 : ℚ) : WithTop ℚ) ∧
      depthCamA.max_depth = ((2 : ℚ) : WithTop ℚ)) ∧
    exampleCam.setDepthRange ((2 : ℚ) : WithTop ℚ) ((1 : ℚ) : WithTop ℚ) = none :=
  ⟨(setRange_fatal_iff exampleCam ((1 : ℚ) : WithTop ℚ)
      ((2 : ℚ) : WithTop ℚ)).2.2.1 depthCamA (by decide),
   (setRange_fatal_iff exampleCam ((2 : ℚ) : WithTop ℚ)
      ((1 : ℚ) : WithTop ℚ)).1.mpr (by decide)⟩

/-- Claim C10: each threshold mutator changes only its own pair of fields:
on success, `setDepthRange` leaves every field other than
`min_depth`/`max_depth` unchanged, `setDistRange` every field other than
`min_dist`/`max_dist`, and `setMargin` every field other than
`w_margin`/`h_margin`; in particular the intrinsics, `K`, `K_inv`, the
extrinsic pose and the bearing cache are unchanged by all three. -/
theorem mutator_frame_spec (c : PinholeCam) (a1 b1 a2 b2 : WithTop ℚ) (r : ℚ)
    (cd cs cm : PinholeCam)
    (hd : c.setDepthRange a1 b1 = some cd)
    (hs : c.setDistRange a2 b2 = some cs)
    (hm : c.setMargin r = some cm) :
    (cd.fx = c.fx ∧ cd.fy = c.fy ∧ cd.cx = c.cx ∧ cd.cy = c.cy ∧
     cd.w = c.w ∧ cd.h = c.h ∧ cd.w_margin = c.w_margin ∧
     cd.h_margin = c.h_margin ∧ cd.min_dist = c.min_dist ∧
     cd.max_dist = c.max_dist ∧ cd.T_b_c = c.T_b_c ∧ cd.K = c.K ∧
     cd.K_inv = c.K_inv ∧ cd.bearings_at_pixels = c.bearings_at_pixels ∧
     cd.pixel_bearing_computed = c.pixel_bearing_computed) ∧
    (cs.fx = c.fx ∧ cs.fy = c.fy ∧ cs.cx = c.cx ∧ cs.cy = c.cy ∧
     cs.w = c.w ∧ cs.h = c.h ∧ cs.w_margin = c.w_margin ∧
     cs.h_margin = c.h_margin ∧ cs.min_depth = c.min_depth ∧
     cs.max_depth = c.max_depth ∧ cs.T_b_c = c.T_b_c ∧ cs.K = c.K ∧
     cs.K_inv = c.K_inv ∧ cs.bearings_at_pixels = c.bearings_at_pixels ∧
     cs.pixel_bearing_computed = c.pixel_bearing_computed) ∧
    (cm.fx = c.fx ∧ cm.fy = c.fy ∧ cm.cx = c.cx ∧ cm.cy = c.cy ∧
     cm.w = c.w ∧ cm.h = c.h ∧ cm.min_depth = c.min_depth ∧
     cm.max_depth = c.max_depth ∧ cm.min_dist = c.min_dist ∧
     cm.max_dist = c.max_dist ∧ cm.T_b_c = c.T_b_c ∧ cm.K = c.K ∧
     cm.K_inv = c.K_inv ∧ cm.bearings_at_pixels = c.bearings_at_pixels ∧
     cm.pixel_bearing_computed = c.pixel_bearing_computed) := by
  refine ⟨?_, ?_, ?_⟩
  · unfold PinholeCam.setDepthRange at hd
    split at hd
    · obtain rfl := Option.some.inj hd
      exact ⟨rfl, rfl, rfl, rfl, rfl, rfl, rfl, rfl, rfl, rfl, rfl, rfl, rfl,
        rfl, rfl⟩
    · exact Option.noConfusion hd
  · unfold PinholeCam.setDistRange at hs
    split at hs
    · obtain rfl := Option.some.inj hs
      exact ⟨rfl, rfl, rfl, rfl, rfl, rfl, rfl, rfl, rfl, rfl, rfl, rfl, rfl,
        rfl, rfl⟩
    · exact Option.noConfusion hs
  · unfold PinholeCam.setMargin at hm
    split at hm
    · obtain rfl := Option.some.inj hm
      exact ⟨rfl, rfl, rfl, rfl, rfl, rfl, rfl, rfl, rfl, rfl, rfl, rfl, rfl,
        rfl, rfl⟩
    · exact Option.noConfusion hm

/-- Witness for C10 on the example camera: after `setDepthRange(1, 2)` the
intrinsic matrix is unchanged, after `setDistRange(1, 2)` the depth minimum is
unchanged, and after `setMargin(1/4)` the inverse intrinsic matrix is
unchanged. -/
theorem mutator_frame_spec_witness :
    depthCamA.K = exampleCam.K ∧ distCamA.min_depth = exampleCam.min_depth ∧
    marginCamA.K_inv = exampleCam.K_inv := by
  have H := mutator_frame_spec exampleCam ((1 : ℚ) : WithTop ℚ)
    ((2 : ℚ) : WithTop ℚ) ((1 : ℚ) : WithTop ℚ) ((2 : ℚ) : WithTop ℚ) (1 / 4)
    depthCamA distCamA marginCamA (by decide) (by decide) (by decide)
  obtain ⟨⟨-, -, -, -, -, -, -, -, -, -, -, hK1, -, -, -⟩,
          ⟨-, -, -, -, -, -, -, -, hmd, -, -, -, -, -, -⟩,
          ⟨-, -, -, -, -, -, -, -, -, -, -, -, hKi, -, -⟩⟩ := H
  exact ⟨hK1, hmd, hKi⟩

end ClaimTheoremsTwo

section ClaimTheoremsThree

attribute [local semireducible] Rat.add Rat.mul Rat.inv Rat.sub

theorem compactVisible_eq (us : List Vec2) (js : List Int) (vs : List Bool) :
    compactVisible us js vs =
      ((((us.zip js).zip vs).filterMap fun q =>
          if q.2 = true then some q.1 else none).map Prod.fst,
       (((us.zip js).zip vs).filterMap fun q =>
          if q.2 = true then some q.1 else none).map Prod.snd) := by
  induction us generalizing js vs with
  | nil =>
    cases js <;> cases vs <;> simp [compactVisible]
  | cons u us ih =>
    cases js with
    | nil => cases vs <;> simp [compactVisible]
    | cons j js =>
      cases vs with
      | nil => simp [compactVisible]
      | cons v vs =>
        cases v <;> simp [compactVisible, ih]

theorem compactVisible_length (us : List Vec2) (js : List Int) (vs : List Bool)
    (h1 : us.length = vs.length) (h2 : js.length = vs.length) :
    (compactVisible us js vs).1.length = vs.count true ∧
    (compactVisible us js vs).2.length = vs.count true := by
  induction us generalizing js vs with
  | nil =>
    cases vs with
    | nil => cases js <;> simp [compactVisible]
    | cons v vs => simp at h1
  | cons u us ih =>
    cases vs with
    | nil => simp at h1
    | cons v vs =>
      cases js with
      | nil => simp at h2
      | cons j js =>
        simp only [List.length_cons, Nat.add_right_cancel_iff] at h1 h2
        have hrec := ih js vs h1 h2
        cases v <;>
          simp [compactVisible, List.count_cons, hrec.1, hrec.2]

theorem map_fst_zip_map_snd {α β : Type} (l : List (α × β)) :
    (l.map Prod.fst).zip (l.map Prod.snd) = l := by
  induction l with
  | nil => simp
  | cons a l ih => simp [ih]

/-- Claim C1: `project3dBatchWithIds` on `N` points and `N` landmark ids
emits a measurement set with exactly `count true` entries of the visibility
vector of `project3dBatch`; the (pixel, id) pairs are exactly the visible
columns in original column order (filtering, no reordering); and the track-id
column is the unset sentinel `-1` at every entry. -/
theorem project3dBatchWithIds_spec (c : PinholeCam) (pcs : List Vec3)
    (ids : List Int) (m0 : CamMeasurements)
    (hlen : ids.length = pcs.length) :
    (c.project3dBatchWithIds pcs ids m0).keypoints.length =
      ((c.project3dBatch pcs).2).count true ∧
    (c.project3dBatchWithIds pcs ids m0).global_lm_ids.length =
      ((c.project3dBatch pcs).2).count true ∧
    (c.project3dBatchWithIds pcs ids m0).track_ids =
      List.replicate (((c.project3dBatch pcs).2).count true) (-1) ∧
    (c.project3dBatchWithIds pcs ids m0).keypoints.zip
        (c.project3dBatchWithIds pcs ids m0).global_lm_ids =
      ((((c.project3dBatch pcs).1).zip ids).zip
          ((c.project3dBatch pcs).2)).filterMap
        fun q => if q.2 = true then some q.1 else none := by
  have hus : ((c.project3dBatch pcs).1).length = ((c.project3dBatch pcs).2).length := by
    rw [project3dBatch_eq]
    simp
  have hids : ids.length = ((c.project3dBatch pcs).2).length := by
    rw [project3dBatch_eq]
    simpa using hlen
  have hL := compactVisible_length ((c.project3dBatch pcs).1) ids
    ((c.project3dBatch pcs).2) hus hids
  have hE := compactVisible_eq ((c.project3dBatch pcs).1) ids
    ((c.project3dBatch pcs).2)
  unfold PinholeCam.project3dBatchWithIds
  simp only [CamMeasurements.setMeasurements]
  refine ⟨hL.1, hL.2, by trivial, ?_⟩
  rw [congrArg Prod.fst hE, congrArg Prod.snd hE]
  exact map_fst_zip_map_snd _

/-- Witness for C1: three points with ids `[7, 8, 9]`, of which the first and
third are visible in the example camera. -/
theorem project3dBatchWithIds_spec_witness :
    (exampleCam.project3dBatchWithIds
        [Vec3.mk 0 0 2, Vec3.mk 100 0 1, Vec3.mk 1 1 3] [7, 8, 9]
        (CamMeasurements.mk [] [] [])).keypoints.length =
      ((exampleCam.project3dBatch
        [Vec3.mk 0 0 2, Vec3.mk 100 0 1, Vec3.mk 1 1 3]).2).count true ∧
    (exampleCam.project3dBatchWithIds
        [Vec3.mk 0 0 2, Vec3.mk 100 0 1, Vec3.mk 1 1 3] [7, 8, 9]
        (CamMeasurements.mk [] [] [])).track_ids =
      List.replicate (((exampleCam.project3dBatch
        [Vec3.mk 0 0 2, Vec3.mk 100 0 1, Vec3.mk 1 1 3]).2).count true) (-1) :=
  ⟨(project3dBatchWithIds_spec exampleCam
      [Vec3.mk 0 0 2, Vec3.mk 100 0 1, Vec3.mk 1 1 3] [7, 8, 9]
      (CamMeasurements.mk [] [] []) (by decide)).1,
   (project3dBatchWithIds_spec exampleCam
      [Vec3.mk 0 0 2, Vec3.mk 100 0 1, Vec3.mk 1 1 3] [7, 8, 9]
      (CamMeasurements.mk [] [] []) (by decide)).2.2.1⟩

/-- Claim C7: after `computeBearingVectors`, `getBearingAtPixel(x, y)` for an
in-range pixel is a pure positional lookup at flat index `y*w + x` of the
cache and returns exactly the direction an independent `backproject3d((x, y))`
computes; calling it on a camera whose cache is unpopulated is fatal. -/
theorem bearing_cache_spec (c : PinholeCam) (x y : ℤ)
    (hx0 : 0 ≤ x) (hxw : x < c.w) (hy0 : 0 ≤ y) (hyh : y < c.h) :
    c.computeBearingVectors.getBearingAtPixel x y =
      (c.computeBearingVectors.bearings_at_pixels)[
        (c.computeBearingVectors.pixelCoordToFlatIdx x y).toNat]? ∧
    c.computeBearingVectors.getBearingAtPixel x y =
      some (c.backproject3d (Vec2.mk (x : ℚ) (y : ℚ))) ∧
    (c.pixel_bearing_computed = false → c.getBearingAtPixel x y = none) := by
  have hw0 : (0 : ℤ) < c.w := lt_of_le_of_lt hx0 hxw
  have hwn : 0 < c.w.toNat := by omega
  have hxn : x.toNat < c.w.toNat := by omega
  have hyn : y.toNat < c.h.toNat := by omega
  have hc' : c.computeBearingVectors.getBearingAtPixel x y =
      ((List.range (c.h.toNat * c.w.toNat)).map fun idx =>
        c.backproject3d (Vec2.mk ((idx % c.w.toNat : ℕ) : ℚ)
          ((idx / c.w.toNat : ℕ) : ℚ)))[(y * c.w + x).toNat]? := rfl
  have hidx : (y * c.w + x).toNat = y.toNat * c.w.toNat + x.toNat := by
    have hcast : y * c.w + x = ((y.toNat * c.w.toNat + x.toNat : ℕ) : ℤ) := by
      push_cast [Int.toNat_of_nonneg hy0, Int.toNat_of_nonneg hx0,
        Int.toNat_of_nonneg (le_of_lt hw0)]
      ring
    rw [hcast, Int.toNat_natCast]
  have hbound : y.toNat * c.w.toNat + x.toNat < c.h.toNat * c.w.toNat := by
    calc y.toNat * c.w.toNat + x.toNat
        < y.toNat * c.w.toNat + c.w.toNat := by omega
      _ = (y.toNat + 1) * c.w.toNat := by ring
      _ ≤ c.h.toNat * c.w.toNat :=
          Nat.mul_le_mul_right _ (Nat.succ_le_of_lt hyn)
  have hmod : (y.toNat * c.w.toNat + x.toNat) % c.w.toNat = x.toNat := by
    rw [Nat.add_comm, Nat.mul_comm, Nat.add_mul_mod_self_left]
    exact Nat.mod_eq_of_lt hxn
  have hdiv : (y.toNat * c.w.toNat + x.toNat) / c.w.toNat = y.toNat := by
    rw [Nat.add_comm, Nat.mul_comm, Nat.add_mul_div_left _ _ hwn,
      Nat.div_eq_of_lt hxn, Nat.zero_add]
  have hxq : ((x.toNat : ℕ) : ℚ) = (x : ℚ) := by
    exact_mod_cast Int.toNat_of_nonneg hx0
  have hyq : ((y.toNat : ℕ) : ℚ) = (y : ℚ) := by
    exact_mod_cast Int.toNat_of_nonneg hy0
  refine ⟨rfl, ?_, ?_⟩
  · rw [hc', hidx, List.getElem?_map]
    simp [List.getElem?_range, hbound, hmod, hdiv, hxq, hyq]
  · intro hfalse
    simp [PinholeCam.getBearingAtPixel, hfalse]

/-- Witness for C7 on the small camera (`w = 3`, `h = 2`) at pixel `(2, 1)`:
the cached bearing equals the independent backprojection, and the lookup on
the unpopulated camera is fatal. -/
theorem bearing_cache_spec_witness :
    tinyCam.computeBearingVectors.getBearingAtPixel 2 1 =
      some (tinyCam.backproject3d (Vec2.mk 2 1)) ∧
    tinyCam.getBearingAtPixel 2 1 = none :=
  ⟨(bearing_cache_spec tinyCam 2 1 (by decide) (by decide) (by decide)
      (by decide)).2.1,
   (bearing_cache_spec tinyCam 2 1 (by decide) (by decide) (by decide)
      (by decide)).2.2 (by decide)⟩

end ClaimTheoremsThree
